import Mathlib

set_option maxRecDepth 1000000
set_option maxHeartbeats 1000000

/-!
A shallow embedding of `JanggiGame.py` (a Janggi rules engine) and proofs of
spec-level properties about it.

Conventions of the embedding:
* A board coordinate is a pair of integers `(column, row)`; the board is a
  9 x 10 grid (columns 0-8, rows 0-9).  Integers (not naturals) are used
  because the source freely forms out-of-range coordinates such as `(6, -1)`
  and Python list indexing gives negative indices wrap-around semantics.
* Python sets become `Finset (Int × Int)`.
* The 2D array `GameBoard._spaces` becomes a `List (List (Option Pc))`
  (9 columns, each of 10 rows), read and written through `pyIdx` / `pySet`,
  which reproduce Python's list-index semantics (negative indices wrap;
  an index outside `[-len, len)` raises, modelled as `none` / no-op).
* Python `while` loops over board rays become fuel-indexed recursion; the
  fuel (12) strictly exceeds the number of iterations any ray starting from
  an on-board coordinate can make before leaving the 9 x 10 grid, so the
  functions compute exactly what the loops compute.
* Mutation becomes explicit state passing; `copy.deepcopy` followed by
  mutation of the copy is the same pure transformation as mutation of the
  original, so the simulation helper and the commit path share `applyMove`,
  exactly as the source shares `update_board`.
-/

namespace Janggi

/-- A board coordinate `(column, row)`. -/
abbrev Coord := Int × Int

/-- Player colors. -/
inductive Color where
  | blue
  | red
deriving DecidableEq, Repr

/-- `Player.get_opponent_color`: the other color. -/
def Color.other : Color → Color
  | .blue => .red
  | .red => .blue

/-- The seven piece ranks (the subclasses of `BoardPiece`). -/
inductive PieceType where
  | general
  | guard
  | horse
  | elephant
  | chariot
  | cannon
  | soldier
deriving DecidableEq, Repr, Inhabited

/-- What a board cell stores about its occupant: the piece's color and rank
(the Python cell stores a reference to the piece object). -/
abbrev Pc := Color × PieceType

/-- A piece as it appears in a `Player`'s roster: its rank and its
`_position` attribute. -/
structure PieceSt where
  ptype : PieceType
  pos : Coord
deriving DecidableEq, Repr, Inhabited

/-- The `Player` object: color, roster of live pieces (`_pieces`, the
General first), occupied-coordinate set (`_occupied_spaces`) and the
in-check flag (stored on the General object in the source, but read and
written only through `Player.get_is_in_check` / `set_is_in_check`). -/
structure PlayerSt where
  color : Color
  pieces : List PieceSt
  occupied : Finset Coord
  inCheck : Bool
deriving DecidableEq

/-- The game-state tag. -/
inductive GState where
  | unfinished
  | blueWon
  | redWon
deriving DecidableEq, Repr

/-! ### Board geometry (computed once in `GameBoard.__init__`) -/

/-- All 90 coordinates of the 9 x 10 board (`GameBoard._all_spaces`):
columns 0-8, rows 0-9. -/
def allSpaces : Finset Coord := Finset.Icc (0 : Int) 8 ×ˢ Finset.Icc (0 : Int) 9

theorem mem_allSpaces {c : Coord} :
    c ∈ allSpaces ↔ 0 ≤ c.1 ∧ c.1 ≤ 8 ∧ 0 ≤ c.2 ∧ c.2 ≤ 9 := by
  simp [allSpaces, Finset.mem_product, Finset.mem_Icc, and_assoc]

/-- The cells of one 3 x 3 palace zone, iterated columns 3-5 outer and the
given rows inner, exactly in the source's loop order. -/
def zoneCells (ys : List Int) : List Coord :=
  ([3, 4, 5] : List Int).flatMap fun c => ys.map fun r => (c, r)

/-- The two palace zones (`GameBoard._palace_spaces`): columns 3-5, rows 7-9
(blue) and rows 0-2 (red). -/
def palaceSpaces : Finset Coord :=
  (zoneCells [7, 8, 9] ++ zoneCells [0, 1, 2]).toFinset

/-- One zone's diagonal-connected points: every other cell of the zone in the
source's iteration order (counter parity), i.e. the 4 corners plus the
center. -/
def zoneDiagonals (ys : List Int) : List Coord :=
  ((zoneCells ys).enum.filter fun p => p.1 % 2 = 0).map Prod.snd

/-- `GameBoard._palace_diagonals`: the diagonal-connected palace points of
both zones. -/
def palaceDiagonals : Finset Coord :=
  (zoneDiagonals [7, 8, 9] ++ zoneDiagonals [0, 1, 2]).toFinset

/-! ### Python list indexing -/

/-- Python list read `l[i]`: indices in `[0, len)` read directly, indices in
`[-len, 0)` wrap around, anything else raises `IndexError` (`none`). -/
def pyIdx {α : Type} (l : List α) (i : Int) : Option α :=
  let j := if i < 0 then i + l.length else i
  if 0 ≤ j ∧ j < l.length then l.get? j.toNat else none

/-- Python list write `l[i] = a`, with the same index translation as
`pyIdx`.  (An out-of-range write raises in Python; it is never reached by
any reachable call in the source, and is modelled as a no-op.) -/
def pySet {α : Type} (l : List α) (i : Int) (a : α) : List α :=
  let j := if i < 0 then i + l.length else i
  if 0 ≤ j ∧ j < l.length then l.set j.toNat a else l

/-! ### GameBoard -/

/-- The `GameBoard` object: the 2D array `_spaces` (outer index = column)
and the explicitly tracked set `_available_spaces`.  `_all_spaces`,
`_palace_spaces` and `_palace_diagonals` are fixed at construction and
never mutated, so they live as the global constants above. -/
structure GameBoard where
  spaces : List (List (Option Pc))
  availableSpaces : Finset Coord
deriving DecidableEq

namespace GameBoard

/-- `GameBoard.get_piece_at_coord`: `self._spaces[x][y]`, two Python list
reads.  `none` models the `IndexError` raise; `some v` is a normal return of
the occupant `v` (which is itself `none` for an empty space). -/
def get_piece_at_coord (b : GameBoard) (c : Coord) : Option (Option Pc) :=
  (pyIdx b.spaces c.1).bind fun col => pyIdx col c.2

/-- Write one cell of `_spaces`: `self._spaces[x][y] = v`. -/
def setCell (sp : List (List (Option Pc))) (c : Coord) (v : Option Pc) :
    List (List (Option Pc)) :=
  match pyIdx sp c.1 with
  | some col => pySet sp c.1 (pySet col c.2 v)
  | none => sp

/-- `GameBoard.place_piece`: installs the piece at the coordinate's `Space`
first, then removes the coordinate from `_available_spaces`.  Python's
`set.remove` raises `KeyError` when the element is absent, AFTER the cell
has already been overwritten; the `Bool` component records that raise. -/
def place_piece (b : GameBoard) (c : Coord) (p : Pc) : GameBoard × Bool :=
  let sp := setCell b.spaces c (some p)
  if c ∈ b.availableSpaces then
    ({ spaces := sp, availableSpaces := b.availableSpaces.erase c }, false)
  else
    ({ spaces := sp, availableSpaces := b.availableSpaces }, true)

/-- `GameBoard.remove_piece`: clears the cell and adds the coordinate back
to `_available_spaces` (`set.add` never raises). -/
def remove_piece (b : GameBoard) (c : Coord) : GameBoard :=
  { spaces := setCell b.spaces c none,
    availableSpaces := insert c b.availableSpaces }

/-- `GameBoard.get_occupied_spaces`: set difference of all spaces and
available spaces. -/
def get_occupied_spaces (b : GameBoard) : Finset Coord :=
  allSpaces \ b.availableSpaces

end GameBoard

/-- Board-cell read as used by the movement code, which only ever asks for
cells it has already bounds-checked: flattens the `IndexError` layer. -/
def occOf (b : GameBoard) : Coord → Option Pc := fun c =>
  match b.get_piece_at_coord c with
  | some v => v
  | none => none

/-! ### Piece movement rules

Each variant's `get_move_range` takes the board occupancy as a function
`occ : Coord → Option Pc` (the variants only ever read cells they have
already bounds-checked), the owning player's `_occupied_spaces` as
`allied`, and the piece's `_position` as `pos`.  The palace sets are the
global constants, identical on every board. -/

/-- `range(v - 1, v + 2)`, the inclusive three-value window used all over
the source. -/
def threeBy (v : Int) : List Int := [v - 1, v, v + 1]

namespace General

/-- `General.get_move_range`: full 3 x 3 adjacency when on a
diagonal-connected palace point, orthogonal steps otherwise, both filtered
to palace spaces not occupied by allies. -/
def get_move_range (allied : Finset Coord) (pos : Coord) : Finset Coord :=
  if pos ∈ palaceDiagonals then
    (((threeBy pos.1).flatMap fun xc => (threeBy pos.2).map fun yc => (xc, yc)).filter
      fun c => decide (c ∈ palaceSpaces \ allied)).toFinset
  else
    ((((threeBy pos.1).map fun xc => (xc, pos.2)) ++
        ((threeBy pos.2).map fun yc => (pos.1, yc))).filter
      fun c => decide (c ∈ palaceSpaces \ allied)).toFinset

end General

namespace Guard

/-- `Guard.get_move_range`: the source body is line-for-line identical to
`General.get_move_range`. -/
def get_move_range (allied : Finset Coord) (pos : Coord) : Finset Coord :=
  if pos ∈ palaceDiagonals then
    (((threeBy pos.1).flatMap fun xc => (threeBy pos.2).map fun yc => (xc, yc)).filter
      fun c => decide (c ∈ palaceSpaces \ allied)).toFinset
  else
    ((((threeBy pos.1).map fun xc => (xc, pos.2)) ++
        ((threeBy pos.2).map fun yc => (pos.1, yc))).filter
      fun c => decide (c ∈ palaceSpaces \ allied)).toFinset

end Guard

namespace Horse

/-- `Horse.get_move_range`: one orthogonal step (must be on board and
empty) then one diagonal step outward; landing filtered to
`all_spaces - allied_spaces`. -/
def get_move_range (occ : Coord → Option Pc) (allied : Finset Coord) (pos : Coord) :
    Finset Coord :=
  let x := pos.1
  let y := pos.2
  let horiz := ([x - 1, x + 1] : List Int).flatMap fun xc =>
    if (xc, y) ∈ allSpaces ∧ occ (xc, y) = none then
      ([y - 1, y + 1] : List Int).map fun yc => (xc + (if xc < x then -1 else 1), yc)
    else []
  let vert := ([y - 1, y + 1] : List Int).flatMap fun yc =>
    if (x, yc) ∈ allSpaces ∧ occ (x, yc) = none then
      ([x - 1, x + 1] : List Int).map fun xc => (xc, yc + (if yc < y then -1 else 1))
    else []
  ((horiz ++ vert).filter fun c => decide (c ∈ allSpaces \ allied)).toFinset

end Horse

namespace Elephant

/-- `Elephant.get_move_range`: one orthogonal step, one diagonal step, one
more diagonal step.  NOTE (faithful to the source): the innermost loop
re-uses the shadowed branch variable and iterates BOTH final rows
(`y - 2` and `y + 2`, resp. both final columns), so one empty intermediate
diagonal cell admits the landing squares of both diagonal branches of that
orthogonal side. -/
def get_move_range (occ : Coord → Option Pc) (allied : Finset Coord) (pos : Coord) :
    Finset Coord :=
  let x := pos.1
  let y := pos.2
  let horiz := ([x - 1, x + 1] : List Int).flatMap fun xc =>
    if (xc, y) ∈ allSpaces ∧ occ (xc, y) = none then
      ([y - 1, y + 1] : List Int).flatMap fun yb =>
        let s : Int := if xc < x then -1 else 1
        if (xc + s, yb) ∈ allSpaces ∧ occ (xc + s, yb) = none then
          ([y - 2, y + 2] : List Int).map fun yl =>
            (xc + (if xc < x then -2 else 2), yl)
        else []
    else []
  let vert := ([y - 1, y + 1] : List Int).flatMap fun yc =>
    if (x, yc) ∈ allSpaces ∧ occ (x, yc) = none then
      ([x - 1, x + 1] : List Int).flatMap fun xb =>
        let s : Int := if yc < y then -1 else 1
        if (xb, yc + s) ∈ allSpaces ∧ occ (xb, yc + s) = none then
          ([x - 2, x + 2] : List Int).map fun xl =>
            (xl, yc + (if yc < y then -2 else 2))
        else []
    else []
  ((horiz ++ vert).filter fun c => decide (c ∈ allSpaces \ allied)).toFinset

end Elephant

/-- The Chariot/Cannon palace-center search: scan the 3 x 3 window around
`pos` (columns outer, rows inner, in source order) for a diagonal palace
point on the diagonal through `pos` other than `pos` itself.  The inner
`break` in the source only leaves the row loop, so a match found in a later
column overwrites an earlier one: the result is the first match of the last
column that has one. -/
def findPalaceCenter (pos : Coord) : Option Coord :=
  (threeBy pos.1).foldl
    (fun acc xc =>
      match (threeBy pos.2).find? (fun yc =>
          ((xc - pos.1).natAbs == (yc - pos.2).natAbs) &&
            decide ((xc, yc) ∈ palaceDiagonals) && ((xc, yc) != pos)) with
      | some yc => some (xc, yc)
      | none => acc)
    none

/-- One orthogonal Chariot ray (a `while` loop in the source): slide while
on the board, stop at the first occupied cell, including it only when it is
not allied.  Fuel bounds the iteration count; 12 exceeds any on-board
ray length. -/
def slideRay (occ : Coord → Option Pc) (allied : Finset Coord) :
    Nat → Coord → Coord → List Coord
  | 0, _, _ => []
  | fuel + 1, cur, d =>
    let c : Coord := (cur.1 + d.1, cur.2 + d.2)
    if c ∈ allSpaces then
      match occ c with
      | some _ => if c ∈ allied then [] else [c]
      | none => c :: slideRay occ allied fuel c d
    else []

/-- The Chariot's in-palace diagonal ray from a corner: the source keeps
the base position fixed and doubles the offsets each iteration
(`x_offset += x_offset`), stepping corner → center → opposite corner while
inside the diagonal-connected palace points. -/
def chariotDiagRay (occ : Coord → Option Pc) (allied : Finset Coord) :
    Nat → Coord → Coord → List Coord
  | 0, _, _ => []
  | fuel + 1, pos, off =>
    let c : Coord := (pos.1 + off.1, pos.2 + off.2)
    if c ∈ palaceDiagonals then
      match occ c with
      | some _ => if c ∈ allied then [] else [c]
      | none => c :: chariotDiagRay occ allied fuel pos (off.1 + off.1, off.2 + off.2)
    else []

namespace Chariot

/-- `Chariot.get_move_range`: four orthogonal rays, plus the palace
augmentation on diagonal-connected points (center: the 3 x 3 diagonal scan;
corner: the doubling diagonal ray toward the center). -/
def get_move_range (occ : Coord → Option Pc) (allied : Finset Coord) (pos : Coord) :
    Finset Coord :=
  let base :=
    slideRay occ allied 12 pos (-1, 0) ++ slideRay occ allied 12 pos (1, 0) ++
      slideRay occ allied 12 pos (0, -1) ++ slideRay occ allied 12 pos (0, 1)
  let pal :=
    if pos ∈ palaceDiagonals then
      if pos.1 = 4 then
        -- palace center: every diagonal cell of the 3 x 3 window whose
        -- occupant is absent or non-allied
        (threeBy pos.1).flatMap fun xc =>
          (threeBy pos.2).flatMap fun yc =>
            if (xc - pos.1).natAbs = (yc - pos.2).natAbs then
              if occ (xc, yc) = none ∨ (xc, yc) ∉ allied then [(xc, yc)] else []
            else []
      else
        -- palace corner: slide along the diagonal through the center
        let ctr := (findPalaceCenter pos).getD pos
        -- `findPalaceCenter` never returns `none` for a diagonal palace
        -- point (Python would raise `TypeError` on `None[0]`)
        let dx : Int := if ctr.1 < pos.1 then -1 else 1
        let dy : Int := if ctr.2 < pos.2 then -1 else 1
        chariotDiagRay occ allied 6 pos (dx, dy)
    else []
  (base ++ pal).toFinset

end Chariot

/-- One orthogonal Cannon ray (a `while` loop in the source): `screen`
records whether exactly one intervening piece has been passed
(`pieces_between == 1`).  A first occupied cell that is a cannon, or any
occupied cell met once the screen is up, ends the ray, being included only
if it is neither allied nor a cannon; empty cells are included only past
the screen. -/
def cannonRay (occ : Coord → Option Pc) (allied : Finset Coord) :
    Nat → Coord → Coord → Bool → List Coord
  | 0, _, _, _ => []
  | fuel + 1, cur, d, screen =>
    let c : Coord := (cur.1 + d.1, cur.2 + d.2)
    if c ∈ allSpaces then
      match occ c with
      | some p =>
        if screen = true ∨ p.2 = .cannon then
          if c ∉ allied ∧ p.2 ≠ .cannon then [c] else []
        else cannonRay occ allied fuel c d true
      | none =>
        (if screen then [c] else []) ++ cannonRay occ allied fuel c d screen
    else []

namespace Cannon

/-- `Cannon.get_move_range`: four screened orthogonal rays, plus the palace
diagonal leap whenever the cannon stands on a diagonal-connected palace
point: leap two diagonal steps away from the found "center" provided that
cell holds a non-cannon piece and the destination is not allied.  NOTE
(faithful to the source): the destination is never bounds-checked, and when
the cannon itself stands on a palace center, `findPalaceCenter` yields a
neighboring corner instead. -/
def get_move_range (occ : Coord → Option Pc) (allied : Finset Coord) (pos : Coord) :
    Finset Coord :=
  let base :=
    cannonRay occ allied 12 pos (-1, 0) false ++ cannonRay occ allied 12 pos (1, 0) false ++
      cannonRay occ allied 12 pos (0, -1) false ++ cannonRay occ allied 12 pos (0, 1) false
  let pal :=
    if pos ∈ palaceDiagonals then
      let ctr := (findPalaceCenter pos).getD pos
      match occ ctr with
      | some p =>
        if p.2 ≠ .cannon then
          let dx : Int := if ctr.1 < pos.1 then -2 else 2
          let dy : Int := if ctr.2 < pos.2 then -2 else 2
          if (pos.1 + dx, pos.2 + dy) ∉ allied then [(pos.1 + dx, pos.2 + dy)] else []
        else []
      | none => []
    else []
  (base ++ pal).toFinset

end Cannon

namespace Soldier

/-- `Soldier.get_move_range`: one step sideways or forward (forward toward
the opponent: decreasing row for blue, increasing for red), plus the
diagonal-forward steps between diagonal-connected palace points. -/
def get_move_range (allied : Finset Coord) (color : Color) (pos : Coord) :
    Finset Coord :=
  let dy : Int := if color = .blue then -1 else 1
  let horiz :=
    ((threeBy pos.1).map fun xc => (xc, pos.2)).filter fun c =>
      decide (c ∈ allSpaces \ allied)
  let forward :=
    if (pos.1, pos.2 + dy) ∈ allSpaces \ allied then [(pos.1, pos.2 + dy)] else []
  let pal :=
    if pos ∈ palaceDiagonals then
      ((threeBy pos.1).map fun xc => (xc, pos.2 + dy)).filter fun c =>
        decide (c ∈ palaceDiagonals \ allied)
    else []
  (horiz ++ forward ++ pal).toFinset

end Soldier

/-- Rank dispatch for `piece.get_move_range(board)`: `allied` is the owning
player's `_occupied_spaces`, `col` the owning player's color. -/
def pieceRange (b : GameBoard) (allied : Finset Coord) (col : Color) (p : PieceSt) :
    Finset Coord :=
  match p.ptype with
  | .general => General.get_move_range allied p.pos
  | .guard => Guard.get_move_range allied p.pos
  | .horse => Horse.get_move_range (occOf b) allied p.pos
  | .elephant => Elephant.get_move_range (occOf b) allied p.pos
  | .chariot => Chariot.get_move_range (occOf b) allied p.pos
  | .cannon => Cannon.get_move_range (occOf b) allied p.pos
  | .soldier => Soldier.get_move_range allied col p.pos

/-! ### The game object and state machine -/

/-- The `JanggiGame` object: the board, both players (`_players`), the
game-state tag and the turn counter.  (Algebraic-notation conversion is the
external adapter and is not part of the engine; `make_move` below takes the
already-converted coordinates.) -/
structure GameState where
  board : GameBoard
  blue : PlayerSt
  red : PlayerSt
  gameState : GState
  turnCounter : Nat
deriving DecidableEq

/-- `self._players[color]`. -/
def GameState.player (g : GameState) : Color → PlayerSt
  | .blue => g.blue
  | .red => g.red

/-- Replace one player's object. -/
def GameState.setPlayer (g : GameState) : Color → PlayerSt → GameState
  | .blue, p => { g with blue := p }
  | .red, p => { g with red := p }

/-- `Player.set_is_in_check`. -/
def setFlag (g : GameState) (c : Color) (b : Bool) : GameState :=
  g.setPlayer c { g.player c with inCheck := b }

/-- Whose turn the counter parity selects (even = blue). -/
def turnColor (g : GameState) : Color :=
  if g.turnCounter % 2 = 0 then .blue else .red

/-- `Player.get_general`: the first roster entry (`self._pieces[0]`;
Python raises `IndexError` on an empty roster, which no reachable state
produces). -/
def get_general (p : PlayerSt) : PieceSt := p.pieces.headI

/-- `Player.get_threat_range`: the union of all roster pieces' move
ranges, rebuilt from scratch on every call. -/
def get_threat_range (p : PlayerSt) (b : GameBoard) : Finset Coord :=
  p.pieces.foldl (fun acc pc => acc ∪ pieceRange b p.occupied p.color pc) ∅

/-- Whether `c`'s General's position lies in the opposing player's threat
range — the check test the source performs at `make_move` line 131 and
`move_leaves_player_in_check` line 178. -/
def attackedB (c : Color) (g : GameState) : Bool :=
  decide ((get_general (g.player c)).pos ∈
    get_threat_range (g.player (Color.other c)) g.board)

/-- Python `list.remove(piece)`: drop the first roster entry with the given
position (object identity coincides with board position in consistent
states; in states where no entry matches, Python raises `ValueError`,
which no call site reaches). -/
def removeFirstAt : List PieceSt → Coord → List PieceSt
  | [], _ => []
  | p :: rest, c => if p.pos = c then rest else p :: removeFirstAt rest c

/-- `player_piece.set_position(end)`: update the position attribute of the
roster entry sitting at the start coordinate. -/
def setPosFirst : List PieceSt → Coord → Coord → List PieceSt
  | [], _, _ => []
  | p :: rest, a, b =>
    if p.pos = a then { p with pos := b } :: rest else p :: setPosFirst rest a b

/-- `JanggiGame.update_board`: capture the piece at `ep` if any (clear the
cell, drop it from its player's roster and occupied set), then relocate the
moving piece (clear `sp`, install at `ep`, update its position attribute
and its player's occupied set).  Applied by the commit path of `make_move`
and, on the deep copy, by `move_leaves_player_in_check` — deep-copying and
mutating the copy is the same pure transformation, so both call sites share
this function, exactly as the source shares `update_board`. -/
def applyMove (g : GameState) (sp ep : Coord) : GameState :=
  match occOf g.board sp with
  | none => g -- unreachable from both call sites: a piece is present at `sp`
  | some pc =>
    let moverC := pc.1
    let oppC := moverC.other
    let g1 :=
      match occOf g.board ep with
      | some _ =>
        let opp := g.player oppC
        { g.setPlayer oppC
            { opp with
              pieces := removeFirstAt opp.pieces ep,
              occupied := opp.occupied.erase ep } with
          board := g.board.remove_piece ep }
      | none => g
    let pl := g1.player moverC
    { g1.setPlayer moverC
        { pl with
          pieces := setPosFirst pl.pieces sp ep,
          occupied := insert ep (pl.occupied.erase sp) } with
      board := ((g1.board.remove_piece sp).place_piece ep pc).1 }

/-- `JanggiGame.move_leaves_player_in_check`: simulate the move on a copy
of the game and test whether the mover's General ends up in the opponent's
threat range.  (`none` at `sp` is unreachable from the call sites: Python
would raise `AttributeError`.) -/
def move_leaves_player_in_check (g : GameState) (sp ep : Coord) : Bool :=
  match occOf g.board sp with
  | none => false
  | some pc => attackedB pc.1 (applyMove g sp ep)

/-- The piece-roster loop of `verify_checkmate`: for each piece, if some
move of it escapes check, return `False` immediately; exhausting every
piece's every move yields `True`. -/
def verifyCheckmateGo (g : GameState) (c : Color) : List PieceSt → Bool
  | [] => true
  | piece :: rest =>
    if ∃ mv ∈ pieceRange g.board (g.player c).occupied (g.player c).color piece,
        move_leaves_player_in_check g piece.pos mv = false then
      false
    else verifyCheckmateGo g c rest

/-- `JanggiGame.verify_checkmate`. -/
def verify_checkmate (g : GameState) (c : Color) : Bool :=
  verifyCheckmateGo g c (g.player c).pieces

/-- `JanggiGame.make_move` on already-converted coordinates.  `none` models
an uncaught Python exception (e.g. `IndexError` from an off-board end
coordinate); `some (r, g')` is a normal return of `r` with post-state
`g'`.  The checks run in source order: finished game, empty start space,
out of turn, pass, out of range, self-check; then the commit, the mover's
check-flag clear, the opponent check/checkmate evaluation and the turn
increment. -/
def make_move (g : GameState) (sp ep : Coord) : Option (Bool × GameState) :=
  if g.gameState ≠ GState.unfinished then some (false, g)
  else if sp ∉ g.board.get_occupied_spaces then some (false, g)
  else
    match g.board.get_piece_at_coord sp with
    | none => none -- IndexError reading the start cell
    | some none => none -- AttributeError: `None.get_player()`
    | some (some pc) =>
      match g.board.get_piece_at_coord ep with
      | none => none -- IndexError reading the end cell
      | some _ =>
        let player := g.player pc.1
        -- `turnColor g` is the inline parity computation of lines 91-94
        if pc.1 ≠ turnColor g then some (false, g)
        else if sp = ep then
          if player.inCheck = true then some (false, g)
          else some (true, { g with turnCounter := g.turnCounter + 1 })
        else if ep ∉ pieceRange g.board player.occupied player.color ⟨pc.2, sp⟩ then
          some (false, g)
        else if move_leaves_player_in_check g sp ep = true then some (false, g)
        else
          let g1 := applyMove g sp ep
          let g2 := if (g1.player pc.1).inCheck = true then setFlag g1 pc.1 false else g1
          let g3 :=
            if attackedB (Color.other pc.1) g2 = true then
              let g3a := setFlag g2 (Color.other pc.1) true
              if verify_checkmate g3a (Color.other pc.1) = true then
                { g3a with gameState := if pc.1 = .blue then .blueWon else .redWon }
              else g3a
            else g2
          some (true, { g3 with turnCounter := g3.turnCounter + 1 })

/-! ### The canonical starting position -/

/-- Blue's starting roster, in the source's construction order (General
first). -/
def bluePieces : List PieceSt :=
  [⟨.general, (4, 8)⟩, ⟨.guard, (3, 9)⟩, ⟨.guard, (5, 9)⟩,
   ⟨.horse, (2, 9)⟩, ⟨.horse, (7, 9)⟩, ⟨.elephant, (1, 9)⟩, ⟨.elephant, (6, 9)⟩,
   ⟨.chariot, (0, 9)⟩, ⟨.chariot, (8, 9)⟩, ⟨.cannon, (1, 7)⟩, ⟨.cannon, (7, 7)⟩,
   ⟨.soldier, (0, 6)⟩, ⟨.soldier, (2, 6)⟩, ⟨.soldier, (4, 6)⟩, ⟨.soldier, (6, 6)⟩,
   ⟨.soldier, (8, 6)⟩]

/-- Red's starting roster (General first). -/
def redPieces : List PieceSt :=
  [⟨.general, (4, 1)⟩, ⟨.guard, (3, 0)⟩, ⟨.guard, (5, 0)⟩,
   ⟨.horse, (2, 0)⟩, ⟨.horse, (7, 0)⟩, ⟨.elephant, (1, 0)⟩, ⟨.elephant, (6, 0)⟩,
   ⟨.chariot, (0, 0)⟩, ⟨.chariot, (8, 0)⟩, ⟨.cannon, (1, 2)⟩, ⟨.cannon, (7, 2)⟩,
   ⟨.soldier, (0, 3)⟩, ⟨.soldier, (2, 3)⟩, ⟨.soldier, (4, 3)⟩, ⟨.soldier, (6, 3)⟩,
   ⟨.soldier, (8, 3)⟩]

/-- A freshly constructed `Player`. -/
def initPlayer (c : Color) : PlayerSt :=
  let ps := if c = .blue then bluePieces else redPieces
  { color := c, pieces := ps, occupied := (ps.map (·.pos)).toFinset, inCheck := false }

/-- A freshly constructed `GameBoard` before any piece is placed: 9 columns
of 10 empty cells, every coordinate available. -/
def emptyBoard : GameBoard :=
  { spaces := List.replicate 9 (List.replicate 10 none), availableSpaces := allSpaces }

/-- The `JanggiGame.__init__` placement loop. -/
def startingPlacements : List (Coord × Pc) :=
  (bluePieces.map fun p => (p.pos, ((Color.blue, p.ptype) : Pc))) ++
    (redPieces.map fun p => (p.pos, ((Color.red, p.ptype) : Pc)))

/-- The board after `JanggiGame.__init__` has placed every starting
piece. -/
def initialBoard : GameBoard :=
  startingPlacements.foldl (fun b cp => (b.place_piece cp.1 cp.2).1) emptyBoard

/-- A freshly constructed `JanggiGame`. -/
def initialGame : GameState :=
  { board := initialBoard, blue := initPlayer .blue, red := initPlayer .red,
    gameState := .unfinished, turnCounter := 0 }

/-- The game states reachable from a fresh game through `make_move`
requests.  (This over-approximates what external callers can reach —
requests with arbitrary integer coordinates are admitted, while the
algebraic-notation adapter only ever produces on-board coordinates — so
every property proved for all `Reachable` states covers every state an
external caller can produce.) -/
inductive Reachable : GameState → Prop
  | init : Reachable initialGame
  | step {g g' : GameState} {sp ep : Coord} {r : Bool} :
      Reachable g → make_move g sp ep = some (r, g') → Reachable g'

/-- Board states reachable from the populated initial board through
`place_piece` / `remove_piece` calls that respect the documented
preconditions: placing only on unoccupied in-range coordinates, removing
only known occupants. -/
inductive BoardReachable : GameBoard → Prop
  | init : BoardReachable initialBoard
  | place {b : GameBoard} {c : Coord} {p : Pc} :
      BoardReachable b → c ∈ allSpaces → c ∈ b.availableSpaces →
      BoardReachable (b.place_piece c p).1
  | remove {b : GameBoard} {c : Coord} :
      BoardReachable b → c ∈ b.get_occupied_spaces →
      BoardReachable (b.remove_piece c)

/-! ## Lemmas about Python list indexing -/

/-- A 9 x 10 `_spaces` array of the shape `GameBoard.__init__` builds. -/
def SpacesWF (sp : List (List (Option Pc))) : Prop :=
  sp.length = 9 ∧ ∀ col ∈ sp, col.length = 10

instance (sp : List (List (Option Pc))) : Decidable (SpacesWF sp) := by
  unfold SpacesWF; infer_instance

theorem pyIdx_isSome {α : Type} (l : List α) (i : Int) :
    (pyIdx l i).isSome = true ↔ -(l.length : Int) ≤ i ∧ i < (l.length : Int) := by
  simp only [pyIdx]
  by_cases hi : i < 0
  · rw [if_pos hi]
    by_cases hj : 0 ≤ i + (l.length : Int) ∧ i + (l.length : Int) < (l.length : Int)
    · rw [if_pos hj, List.get?_eq_getElem?]
      constructor
      · intro _; omega
      · intro _
        rw [Option.isSome_iff_ne_none]
        intro hnone
        rw [List.getElem?_eq_none_iff] at hnone
        omega
    · rw [if_neg hj]
      simp only [Option.isSome_none, Bool.false_eq_true, false_iff]
      intro hb
      exact hj ⟨by omega, by omega⟩
  · rw [if_neg hi]
    by_cases hj : 0 ≤ i ∧ i < (l.length : Int)
    · rw [if_pos hj, List.get?_eq_getElem?]
      constructor
      · intro _; omega
      · intro _
        rw [Option.isSome_iff_ne_none]
        intro hnone
        rw [List.getElem?_eq_none_iff] at hnone
        omega
    · rw [if_neg hj]
      simp only [Option.isSome_none, Bool.false_eq_true, false_iff]
      intro hb
      exact hj ⟨by omega, by omega⟩

theorem pyIdx_mem {α : Type} {l : List α} {i : Int} {a : α} (h : pyIdx l i = some a) :
    a ∈ l := by
  simp only [pyIdx] at h
  split at h
  all_goals split at h
  all_goals first
    | exact List.get?_mem h
    | exact absurd h (by simp)

/-- In-grid reads need no index translation. -/
theorem pyIdx_nonneg {α : Type} (l : List α) (i : Int) (h0 : 0 ≤ i)
    (h1 : i < (l.length : Int)) : pyIdx l i = l.get? i.toNat := by
  simp only [pyIdx]
  rw [if_neg (not_lt.mpr h0), if_pos ⟨h0, h1⟩]

theorem pySet_nonneg {α : Type} (l : List α) (i : Int) (a : α) (h0 : 0 ≤ i)
    (h1 : i < (l.length : Int)) : pySet l i a = l.set i.toNat a := by
  simp only [pySet]
  rw [if_neg (not_lt.mpr h0), if_pos ⟨h0, h1⟩]

/-- Reading back an in-grid cell just written. -/
theorem get_setCell_self (sp : List (List (Option Pc))) (av : Finset Coord)
    (hwf : SpacesWF sp) {c : Coord} (hc : c ∈ allSpaces) (v : Option Pc) :
    GameBoard.get_piece_at_coord { spaces := GameBoard.setCell sp c v, availableSpaces := av }
      c = some v := by
  obtain ⟨hx0, hx8, hy0, hy9⟩ := mem_allSpaces.mp hc
  have hlen : sp.length = 9 := hwf.1
  have hx : c.1 < (sp.length : Int) := by omega
  have hcol : pyIdx sp c.1 = sp.get? c.1.toNat := pyIdx_nonneg sp c.1 hx0 hx
  have hsome : (sp.get? c.1.toNat).isSome = true := by
    rw [List.get?_eq_getElem?, Option.isSome_iff_ne_none]
    intro hnone
    rw [List.getElem?_eq_none_iff] at hnone
    omega
  obtain ⟨col, hcolv⟩ := Option.isSome_iff_exists.mp hsome
  have hcollen : col.length = 10 := hwf.2 col (List.get?_mem hcolv)
  have hy : c.2 < (col.length : Int) := by omega
  unfold GameBoard.setCell GameBoard.get_piece_at_coord
  rw [hcol, hcolv]
  dsimp only
  rw [pySet_nonneg sp c.1 _ hx0 hx,
    pyIdx_nonneg _ c.1 hx0 (by rw [List.length_set]; exact hx)]
  rw [List.get?_eq_getElem?, List.getElem?_set_self (by omega)]
  dsimp only [Option.bind]
  rw [pySet_nonneg col c.2 v hy0 hy,
    pyIdx_nonneg _ c.2 hy0 (by rw [List.length_set]; exact hy)]
  rw [List.get?_eq_getElem?, List.getElem?_set_self (by omega)]

/-- Successful in-grid board reads, given a well-shaped `_spaces` array. -/
theorem get_isSome_of_wf {b : GameBoard} (hwf : SpacesWF b.spaces) {c : Coord}
    (hc : c ∈ allSpaces) : ∃ v, b.get_piece_at_coord c = some v := by
  obtain ⟨hx0, hx8, hy0, hy9⟩ := mem_allSpaces.mp hc
  have hlen : b.spaces.length = 9 := hwf.1
  have hsome : (pyIdx b.spaces c.1).isSome = true := by
    rw [pyIdx_isSome]; omega
  obtain ⟨col, hcolv⟩ := Option.isSome_iff_exists.mp hsome
  have hcollen : col.length = 10 := hwf.2 col (pyIdx_mem hcolv)
  have hsome2 : (pyIdx col c.2).isSome = true := by
    rw [pyIdx_isSome]; omega
  obtain ⟨v, hv⟩ := Option.isSome_iff_exists.mp hsome2
  refine ⟨v, ?_⟩
  unfold GameBoard.get_piece_at_coord
  rw [hcolv]
  simpa using hv

/-! ## C8: out-of-range board lookups -/

/-- C8, counterexample: the coordinate `(-1, 0)` lies outside the 9 x 10
grid, yet `get_piece_at_coord` does not fail — Python's negative-index
wrap-around makes it return the occupant of `(8, 0)` (Red's chariot) on
the initial board. -/
theorem c8_counterexample :
    GameBoard.get_piece_at_coord initialBoard (-1, 0) =
        some (some (Color.red, PieceType.chariot)) ∧
      ((-1 : Int), (0 : Int)) ∉ allSpaces := by decide

/-- C8, amended: on a well-shaped board, `get_piece_at_coord (x, y)` fails
with `IndexError` exactly when `x` lies outside `[-9, 9)` or `y` lies
outside `[-10, 10)`; coordinates with negative components inside those
bounds wrap around Python-style instead of failing, and every in-range
coordinate returns its occupant (or `none` for an empty cell) normally. -/
theorem c8_amended (b : GameBoard) (hwf : SpacesWF b.spaces) (x y : Int) :
    ((b.get_piece_at_coord (x, y)).isSome = true ↔
      (-9 ≤ x ∧ x < 9 ∧ -10 ≤ y ∧ y < 10)) ∧
    ((x, y) ∈ allSpaces → (b.get_piece_at_coord (x, y)).isSome = true) := by
  have hlen : b.spaces.length = 9 := hwf.1
  have hmain : (b.get_piece_at_coord (x, y)).isSome = true ↔
      (-9 ≤ x ∧ x < 9 ∧ -10 ≤ y ∧ y < 10) := by
    unfold GameBoard.get_piece_at_coord
    rcases hx : pyIdx b.spaces x with _ | col
    · have hbad : ¬ (-(b.spaces.length : Int) ≤ x ∧ x < (b.spaces.length : Int)) := by
        intro hb
        have := (pyIdx_isSome b.spaces x).mpr hb
        rw [hx] at this
        exact absurd this (by simp)
      simp only [Option.none_bind, Option.isSome_none, Bool.false_eq_true, false_iff]
      intro hb
      exact hbad ⟨by omega, by omega⟩
    · have hxb : -(b.spaces.length : Int) ≤ x ∧ x < (b.spaces.length : Int) := by
        rw [← pyIdx_isSome, hx]; rfl
      have hcollen : col.length = 10 := hwf.2 col (pyIdx_mem hx)
      simp only [Option.some_bind]
      rw [pyIdx_isSome]
      constructor
      · intro hb; omega
      · intro hb; omega
  refine ⟨hmain, fun h => hmain.mpr ?_⟩
  obtain ⟨h1, h2, h3, h4⟩ := mem_allSpaces.mp h
  dsimp only at h1 h2 h3 h4
  omega

/-- Witness for `c8_amended` on the initial board at `(3, 5)`. -/
theorem c8_amended_witness :
    SpacesWF initialBoard.spaces ∧
      (((initialBoard.get_piece_at_coord (3, 5)).isSome = true ↔
        (-9 ≤ (3 : Int) ∧ (3 : Int) < 9 ∧ -10 ≤ (5 : Int) ∧ (5 : Int) < 10)) ∧
      (((3 : Int), (5 : Int)) ∈ allSpaces →
        (initialBoard.get_piece_at_coord (3, 5)).isSome = true)) :=
  ⟨by decide, c8_amended initialBoard (by decide) 3 5⟩

/-! ## C10: non-atomic failure of `place_piece` on an occupied cell -/

/-- C10: calling `place_piece` on an occupied in-range coordinate
overwrites the cell's occupant first and only then hits the `KeyError`
from `set.remove` on the available-spaces set: the call errors out, but
the returned (partially mutated) board already holds the new piece at the
cell while the available set is untouched. -/
theorem c10 (b : GameBoard) (c : Coord) (p : Pc) (hwf : SpacesWF b.spaces)
    (hin : c ∈ allSpaces) (hocc : c ∉ b.availableSpaces) :
    (b.place_piece c p).2 = true ∧
      GameBoard.get_piece_at_coord (b.place_piece c p).1 c = some (some p) ∧
      (b.place_piece c p).1.availableSpaces = b.availableSpaces := by
  unfold GameBoard.place_piece
  rw [if_neg hocc]
  exact ⟨rfl, get_setCell_self b.spaces b.availableSpaces hwf hin (some p), rfl⟩

/-- Witness for `c10`: placing onto the occupied `(0, 0)` of the initial
board. -/
theorem c10_witness :
    (initialBoard.place_piece (0, 0) (Color.blue, PieceType.soldier)).2 = true ∧
      GameBoard.get_piece_at_coord
          (initialBoard.place_piece (0, 0) (Color.blue, PieceType.soldier)).1 (0, 0) =
        some (some (Color.blue, PieceType.soldier)) ∧
      (initialBoard.place_piece (0, 0) (Color.blue, PieceType.soldier)).1.availableSpaces =
        initialBoard.availableSpaces :=
  c10 initialBoard (0, 0) (Color.blue, PieceType.soldier) (by decide) (by decide) (by decide)

/-! ## C9: occupied/available partition invariant -/

theorem availableSubset {b : GameBoard} (h : BoardReachable b) :
    b.availableSpaces ⊆ allSpaces := by
  induction h with
  | init => decide
  | place hb hc hav ih =>
    rename_i b c p
    unfold GameBoard.place_piece
    rw [if_pos hav]
    exact (Finset.erase_subset _ _).trans ih
  | remove hb hc ih =>
    rename_i b c
    unfold GameBoard.remove_piece
    intro x hx
    rcases Finset.mem_insert.mp hx with rfl | hx
    · exact (Finset.mem_sdiff.mp hc).1
    · exact ih hx

/-- C9: on every board reachable from the initial board by
precondition-respecting `place_piece` / `remove_piece` calls, the occupied
set and the available set are disjoint and partition the 90 board
coordinates. -/
theorem c9 (b : GameBoard) (h : BoardReachable b) :
    Disjoint b.get_occupied_spaces b.availableSpaces ∧
      b.get_occupied_spaces ∪ b.availableSpaces = allSpaces := by
  unfold GameBoard.get_occupied_spaces
  exact ⟨Finset.sdiff_disjoint, Finset.sdiff_union_of_subset (availableSubset h)⟩

/-- Witness for `c9` at the initial board itself. -/
theorem c9_witness :
    Disjoint initialBoard.get_occupied_spaces initialBoard.availableSpaces ∧
      initialBoard.get_occupied_spaces ∪ initialBoard.availableSpaces = allSpaces :=
  c9 initialBoard BoardReachable.init

/-! ## C2 / C6: the Cannon's palace block misfires on a palace center -/

/-- Occupancy with a red Cannon on the red palace center `(4, 1)` and a red
Soldier on the corner `(5, 0)` (a position a cannon can reach by a screened
orthogonal slide into the palace). -/
def redCenterOcc : Coord → Option Pc := fun c =>
  if c = ((4 : Int), (1 : Int)) then some (Color.red, PieceType.cannon)
  else if c = ((5 : Int), (0 : Int)) then some (Color.red, PieceType.soldier)
  else none

/-- C2, failing input: a Cannon on the red palace center `(4, 1)` with a
non-cannon piece on `(5, 0)` — the palace block takes `(5, 0)` for the
"center", treats the soldier there as the screen and emits the leap
destination `(4 + 2, 1 - 2) = (6, -1)`, an off-board coordinate, with no
bounds check. -/
theorem c2_cannon_offboard :
    ((6 : Int), (-1 : Int)) ∈
        Cannon.get_move_range redCenterOcc
          {((4 : Int), (1 : Int)), ((5 : Int), (0 : Int))} (4, 1) ∧
      ((6 : Int), (-1 : Int)) ∉ allSpaces := by decide

/-- Occupancy with a blue Cannon on the blue palace center `(4, 8)` and a
red Soldier on the corner `(5, 7)`. -/
def blueCenterOcc : Coord → Option Pc := fun c =>
  if c = ((4 : Int), (8 : Int)) then some (Color.blue, PieceType.cannon)
  else if c = ((5 : Int), (7 : Int)) then some (Color.red, PieceType.soldier)
  else none

/-- C6, failing input: a Cannon standing on the blue palace CENTER `(4, 8)`
(a diagonal palace point whose column is 4, hence not one of the four
corners) does gain a diagonal destination: with a non-cannon piece on
`(5, 7)` the palace block emits `(6, 6)`, displaced diagonally by
`(+2, -2)` from the cannon. -/
theorem c6_center_gains_diagonal :
    ((6 : Int), (6 : Int)) ∈
        Cannon.get_move_range blueCenterOcc {((4 : Int), (8 : Int))} (4, 8) ∧
      ((4 : Int), (8 : Int)) ∈ palaceDiagonals ∧
      (6 : Int) - 4 ≠ 0 ∧ (6 : Int) - 8 ≠ 0 := by decide

/-! ## C5: Elephant intermediate-cell blocking -/

/-- Occupancy with a blue Elephant on `(4, 4)` and a red Soldier on
`(2, 3)` — the intermediate diagonal cell of the west-then-northwest
path. -/
def elephantDemoOcc : Coord → Option Pc := fun c =>
  if c = ((4 : Int), (4 : Int)) then some (Color.blue, PieceType.elephant)
  else if c = ((2 : Int), (3 : Int)) then some (Color.red, PieceType.soldier)
  else none

/-- C5, counterexample: for the Elephant on `(4, 4)`, the landing square
`(1, 2)` of the west-then-northwest path stays in the move range even
though that path's own intermediate diagonal cell `(2, 3)` is occupied
(the first orthogonal cell `(3, 4)` being empty): the mirrored
intermediate `(2, 5)` being empty admits both landing rows, contradicting
the claim that occupation of the path's intermediate cell excludes its
landing square. -/
theorem c5_counterexample :
    elephantDemoOcc (3, 4) = none ∧
      elephantDemoOcc (2, 3) = some (Color.red, PieceType.soldier) ∧
      ((1 : Int), (2 : Int)) ∈
        Elephant.get_move_range elephantDemoOcc {((4 : Int), (4 : Int))} (4, 4) := by
  decide

theorem mem_iteNil {α : Type} {p : Prop} [Decidable p] {l : List α} {a : α} :
    a ∈ (if p then l else []) ↔ p ∧ a ∈ l := by
  by_cases hp : p <;> simp [hp]

theorem memA_congr {a b a' b' : Int} (h : ((a, b) : Coord) ∈ allSpaces) (ha : a' = a)
    (hb : b' = b) : ((a', b') : Coord) ∈ allSpaces := by rw [ha, hb]; exact h

theorem occ_congr (occ : Coord → Option Pc) {a b a' b' : Int} (h : occ (a, b) = none)
    (ha : a' = a) (hb : b' = b) : occ (a', b') = none := by rw [ha, hb]; exact h

theorem pair_congr {a b a' b' : Int} (ha : a = a') (hb : b = b') :
    ((a, b) : Coord) = (a', b') := by rw [ha, hb]

/-- The actual necessary condition for an Elephant landing on the
horizontal-first paths toward side `s` (`-1` = west, `1` = east): the
adjacent orthogonal cell is on board and empty, and AT LEAST ONE of the two
intermediate diagonal cells on that side — not necessarily the landing's
own — is on board and empty. -/
def ElephHoriz (occ : Coord → Option Pc) (pos c : Coord) (s : Int) : Prop :=
  (c = (pos.1 + 3 * s, pos.2 - 2) ∨ c = (pos.1 + 3 * s, pos.2 + 2)) ∧
  ((pos.1 + s, pos.2) ∈ allSpaces ∧ occ (pos.1 + s, pos.2) = none) ∧
  (((pos.1 + 2 * s, pos.2 - 1) ∈ allSpaces ∧ occ (pos.1 + 2 * s, pos.2 - 1) = none) ∨
    ((pos.1 + 2 * s, pos.2 + 1) ∈ allSpaces ∧ occ (pos.1 + 2 * s, pos.2 + 1) = none))

/-- The vertical-first analogue of `ElephHoriz` (`-1` = north, `1` =
south). -/
def ElephVert (occ : Coord → Option Pc) (pos c : Coord) (s : Int) : Prop :=
  (c = (pos.1 - 2, pos.2 + 3 * s) ∨ c = (pos.1 + 2, pos.2 + 3 * s)) ∧
  ((pos.1, pos.2 + s) ∈ allSpaces ∧ occ (pos.1, pos.2 + s) = none) ∧
  (((pos.1 - 1, pos.2 + 2 * s) ∈ allSpaces ∧ occ (pos.1 - 1, pos.2 + 2 * s) = none) ∨
    ((pos.1 + 1, pos.2 + 2 * s) ∈ allSpaces ∧ occ (pos.1 + 1, pos.2 + 2 * s) = none))

/-- C5, amended: an Elephant landing square is in the move range only if it
is on board and not allied-occupied, the adjacent orthogonal cell of its
path is on board and empty, and at least one of the TWO intermediate
diagonal cells on that orthogonal side (its own path's or the mirrored
branch's) is on board and empty; occupation of the landing's own
intermediate cell alone does not exclude it. -/
theorem c5_amended (occ : Coord → Option Pc) (allied : Finset Coord) (pos c : Coord)
    (h : c ∈ Elephant.get_move_range occ allied pos) :
    (c ∈ allSpaces ∧ c ∉ allied) ∧
      (ElephHoriz occ pos c (-1) ∨ ElephHoriz occ pos c 1 ∨
        ElephVert occ pos c (-1) ∨ ElephVert occ pos c 1) := by
  simp only [Elephant.get_move_range, List.mem_toFinset, List.mem_filter,
    List.mem_append, List.mem_flatMap, List.mem_map, List.mem_cons,
    List.not_mem_nil, or_false, mem_iteNil, decide_eq_true_eq,
    Finset.mem_sdiff] at h
  obtain ⟨hm, hall⟩ := h
  refine ⟨hall, ?_⟩
  unfold ElephHoriz ElephVert
  rcases hm with ⟨xc, hxc | rfl, hg1, yb, hyb, hg2, yl, hyl, hc⟩ |
    ⟨yc, hyc | rfl, hg1, xb, hxb, hg2, xl, hxl, hc⟩
  · -- west (xc = pos.1 - 1)
    subst hxc
    rw [if_pos (show (pos.1 - 1 : Int) < pos.1 by omega)] at hg2 hc
    subst hc
    rcases hyb with rfl | rfl <;> rcases hyl with rfl | rfl
    all_goals refine Or.inl ⟨?_, ⟨memA_congr hg1.1 (by ring) rfl,
      occ_congr occ hg1.2 (by ring) rfl⟩, ?_⟩
    -- landing-square equality per final row
    · exact Or.inl (pair_congr (by ring) rfl)
    · exact Or.inl ⟨memA_congr hg2.1 (by ring) rfl, occ_congr occ hg2.2 (by ring) rfl⟩
    · exact Or.inr (pair_congr (by ring) rfl)
    · exact Or.inl ⟨memA_congr hg2.1 (by ring) rfl, occ_congr occ hg2.2 (by ring) rfl⟩
    · exact Or.inl (pair_congr (by ring) rfl)
    · exact Or.inr ⟨memA_congr hg2.1 (by ring) rfl, occ_congr occ hg2.2 (by ring) rfl⟩
    · exact Or.inr (pair_congr (by ring) rfl)
    · exact Or.inr ⟨memA_congr hg2.1 (by ring) rfl, occ_congr occ hg2.2 (by ring) rfl⟩
  · -- east (xc = pos.1 + 1)
    rw [if_neg (show ¬ ((pos.1 + 1 : Int) < pos.1) by omega)] at hg2 hc
    subst hc
    rcases hyb with rfl | rfl <;> rcases hyl with rfl | rfl
    all_goals refine Or.inr (Or.inl ⟨?_, ⟨memA_congr hg1.1 (by ring) rfl,
      occ_congr occ hg1.2 (by ring) rfl⟩, ?_⟩)
    · exact Or.inl (pair_congr (by ring) rfl)
    · exact Or.inl ⟨memA_congr hg2.1 (by ring) rfl, occ_congr occ hg2.2 (by ring) rfl⟩
    · exact Or.inr (pair_congr (by ring) rfl)
    · exact Or.inl ⟨memA_congr hg2.1 (by ring) rfl, occ_congr occ hg2.2 (by ring) rfl⟩
    · exact Or.inl (pair_congr (by ring) rfl)
    · exact Or.inr ⟨memA_congr hg2.1 (by ring) rfl, occ_congr occ hg2.2 (by ring) rfl⟩
    · exact Or.inr (pair_congr (by ring) rfl)
    · exact Or.inr ⟨memA_congr hg2.1 (by ring) rfl, occ_congr occ hg2.2 (by ring) rfl⟩
  · -- north (yc = pos.2 - 1)
    subst hyc
    rw [if_pos (show (pos.2 - 1 : Int) < pos.2 by omega)] at hg2 hc
    subst hc
    rcases hxb with rfl | rfl <;> rcases hxl with rfl | rfl
    all_goals refine Or.inr (Or.inr (Or.inl ⟨?_, ⟨memA_congr hg1.1 rfl (by ring),
      occ_congr occ hg1.2 rfl (by ring)⟩, ?_⟩))
    · exact Or.inl (pair_congr rfl (by ring))
    · exact Or.inl ⟨memA_congr hg2.1 rfl (by ring), occ_congr occ hg2.2 rfl (by ring)⟩
    · exact Or.inr (pair_congr rfl (by ring))
    · exact Or.inl ⟨memA_congr hg2.1 rfl (by ring), occ_congr occ hg2.2 rfl (by ring)⟩
    · exact Or.inl (pair_congr rfl (by ring))
    · exact Or.inr ⟨memA_congr hg2.1 rfl (by ring), occ_congr occ hg2.2 rfl (by ring)⟩
    · exact Or.inr (pair_congr rfl (by ring))
    · exact Or.inr ⟨memA_congr hg2.1 rfl (by ring), occ_congr occ hg2.2 rfl (by ring)⟩
  · -- south (yc = pos.2 + 1)
    rw [if_neg (show ¬ ((pos.2 + 1 : Int) < pos.2) by omega)] at hg2 hc
    subst hc
    rcases hxb with rfl | rfl <;> rcases hxl with rfl | rfl
    all_goals refine Or.inr (Or.inr (Or.inr ⟨?_, ⟨memA_congr hg1.1 rfl (by ring),
      occ_congr occ hg1.2 rfl (by ring)⟩, ?_⟩))
    · exact Or.inl (pair_congr rfl (by ring))
    · exact Or.inl ⟨memA_congr hg2.1 rfl (by ring), occ_congr occ hg2.2 rfl (by ring)⟩
    · exact Or.inr (pair_congr rfl (by ring))
    · exact Or.inl ⟨memA_congr hg2.1 rfl (by ring), occ_congr occ hg2.2 rfl (by ring)⟩
    · exact Or.inl (pair_congr rfl (by ring))
    · exact Or.inr ⟨memA_congr hg2.1 rfl (by ring), occ_congr occ hg2.2 rfl (by ring)⟩
    · exact Or.inr (pair_congr rfl (by ring))
    · exact Or.inr ⟨memA_congr hg2.1 rfl (by ring), occ_congr occ hg2.2 rfl (by ring)⟩

/-- Witness for `c5_amended` at the `elephantDemoOcc` position and the
landing square `(1, 2)`. -/
theorem c5_amended_witness :
    ((1 : Int), (2 : Int)) ∈
        Elephant.get_move_range elephantDemoOcc {((4 : Int), (4 : Int))} (4, 4) ∧
      ((((1 : Int), (2 : Int)) : Coord) ∈ allSpaces ∧
          (((1 : Int), (2 : Int)) : Coord) ∉ ({((4 : Int), (4 : Int))} : Finset Coord)) ∧
        (ElephHoriz elephantDemoOcc (4, 4) (1, 2) (-1) ∨
          ElephHoriz elephantDemoOcc (4, 4) (1, 2) 1 ∨
          ElephVert elephantDemoOcc (4, 4) (1, 2) (-1) ∨
          ElephVert elephantDemoOcc (4, 4) (1, 2) 1) :=
  ⟨by decide, c5_amended elephantDemoOcc {((4 : Int), (4 : Int))} (4, 4) (1, 2) (by decide)⟩

/-! ## C7: passing -/

/-- C7: in an unfinished game where the start coordinate is occupied and
holds a piece of the color whose turn it is, a pass request (`from = to`)
is rejected exactly when that player is in check; otherwise it succeeds,
returning `True` and incrementing only the turn counter (board, players
and game tag unchanged). -/
theorem c7 (g : GameState) (sp : Coord) (pc : Pc)
    (hun : g.gameState = GState.unfinished)
    (hocc : sp ∈ g.board.get_occupied_spaces)
    (hcell : g.board.get_piece_at_coord sp = some (some pc))
    (hturn : pc.1 = turnColor g) :
    make_move g sp sp =
      some (if (g.player pc.1).inCheck = true then (false, g)
        else (true, { g with turnCounter := g.turnCounter + 1 })) := by
  unfold make_move
  rw [if_neg (by simp [hun]), if_neg (by simp [hocc]), hcell]
  dsimp only
  rw [if_neg (by simp [hturn]), if_pos rfl]
  split <;> rfl

/-- Witness for `c7`: the opening position, blue passing on its soldier at
`(0, 6)`. -/
theorem c7_witness :
    make_move initialGame (0, 6) (0, 6) =
      some (if (initialGame.player (Color.blue, PieceType.soldier).1).inCheck = true then
          (false, initialGame)
        else (true, { initialGame with turnCounter := initialGame.turnCounter + 1 })) :=
  c7 initialGame (0, 6) (Color.blue, PieceType.soldier) rfl (by decide) (by decide)
    (by decide)

/-! ## C4: every enumerated rejection returns `False` with no mutation -/

/-- The rejection reasons of §4.4 steps 1-6: finished game, empty start
space, acting out of turn, passing while in check, destination outside the
piece's range, move leaving the mover in check. -/
def RejectionReason (g : GameState) (sp ep : Coord) : Prop :=
  g.gameState ≠ GState.unfinished ∨
  sp ∉ g.board.get_occupied_spaces ∨
  (∃ pc : Pc, g.board.get_piece_at_coord sp = some (some pc) ∧
    (pc.1 ≠ turnColor g ∨
      (sp = ep ∧ (g.player pc.1).inCheck = true) ∨
      (sp ≠ ep ∧
        ep ∉ pieceRange g.board (g.player pc.1).occupied (g.player pc.1).color ⟨pc.2, sp⟩) ∨
      (sp ≠ ep ∧ move_leaves_player_in_check g sp ep = true)))

/-- C4: a request for in-range coordinates that trips any enumerated
rejection reason makes `make_move` return `False` without raising, with
the game state — board, players, flags, counter and tag — unchanged. -/
theorem c4 (g : GameState) (sp ep : Coord) (hep : ep ∈ allSpaces)
    (hwf : SpacesWF g.board.spaces) (hR : RejectionReason g sp ep) :
    make_move g sp ep = some (false, g) := by
  unfold make_move
  by_cases h1 : g.gameState = GState.unfinished
  case neg => rw [if_pos (by simp [h1])]
  case pos =>
  rw [if_neg (by simp [h1])]
  by_cases h2 : sp ∈ g.board.get_occupied_spaces
  case neg => rw [if_pos h2]
  case pos =>
  rw [if_neg (by simp [h2])]
  rcases hR with hGS | hOcc | ⟨pc, hcell, hrest⟩
  · exact absurd h1 hGS
  · exact absurd h2 hOcc
  · rw [hcell]
    obtain ⟨v, hv⟩ := get_isSome_of_wf hwf hep
    rw [hv]
    dsimp only
    rcases hrest with hTurn | ⟨hpe, hchk⟩ | ⟨hne, hrange⟩ | ⟨hne, hlv⟩
    · rw [if_pos hTurn]
    · by_cases ht : pc.1 ≠ turnColor g
      · rw [if_pos ht]
      · rw [if_neg ht, if_pos hpe, if_pos hchk]
    · by_cases ht : pc.1 ≠ turnColor g
      · rw [if_pos ht]
      · rw [if_neg ht, if_neg hne, if_pos hrange]
    · by_cases ht : pc.1 ≠ turnColor g
      · rw [if_pos ht]
      · rw [if_neg ht, if_neg hne]
        by_cases hr : ep ∉ pieceRange g.board (g.player pc.1).occupied
            (g.player pc.1).color ⟨pc.2, sp⟩
        · rw [if_pos hr]
        · rw [if_neg hr, if_pos hlv]

/-- Witness for `c4`: red trying to move its soldier on blue's turn from
the opening position. -/
theorem c4_witness :
    make_move initialGame (0, 3) (0, 4) = some (false, initialGame) :=
  c4 initialGame (0, 3) (0, 4) (by decide) (by decide)
    (Or.inr (Or.inr ⟨(Color.red, PieceType.soldier), by decide, Or.inl (by decide)⟩))

/-! ## C3: the checkmate test -/

/-- C3: for a player currently in check, `verify_checkmate` returns `True`
iff every move of every owned piece, when simulated, still leaves that
player's General in the opponent's threat range; one escaping simulation
makes it return `False`. -/
theorem c3 (g : GameState) (c : Color) (hin : (g.player c).inCheck = true) :
    (verify_checkmate g c = true ↔
      ∀ piece ∈ (g.player c).pieces,
        ∀ mv ∈ pieceRange g.board (g.player c).occupied (g.player c).color piece,
          move_leaves_player_in_check g piece.pos mv = true) := by
  unfold verify_checkmate
  induction (g.player c).pieces with
  | nil => simp [verifyCheckmateGo]
  | cons p rest ih =>
    simp only [verifyCheckmateGo]
    by_cases hesc : ∃ mv ∈ pieceRange g.board (g.player c).occupied (g.player c).color p,
        move_leaves_player_in_check g p.pos mv = false
    · rw [if_pos hesc]
      constructor
      · intro h; exact absurd h (by simp)
      · intro hall
        obtain ⟨mv, hmv, hf⟩ := hesc
        have ht := hall p (by simp) mv hmv
        rw [ht] at hf
        exact absurd hf (by simp)
    · rw [if_neg hesc, ih]
      constructor
      · intro hrest piece hp mv hmv
        rcases List.mem_cons.mp hp with rfl | hp'
        · by_contra hne
          exact hesc ⟨mv, hmv, by
            revert hne; cases move_leaves_player_in_check g piece.pos mv <;> simp⟩
        · exact hrest piece hp' mv hmv
      · intro hall piece hp mv hmv
        exact hall piece (List.mem_cons_of_mem _ hp) mv hmv

/-- A small consistent position: blue General `(4, 8)`, blue Chariot
`(4, 4)` giving check to the red General `(4, 1)`; red to move, red's
in-check flag set. -/
def checkDemoBoard : GameBoard :=
  ([(((4 : Int), (8 : Int)), ((Color.blue, PieceType.general) : Pc)),
    (((4 : Int), (4 : Int)), ((Color.blue, PieceType.chariot) : Pc)),
    (((4 : Int), (1 : Int)), ((Color.red, PieceType.general) : Pc))] :
      List (Coord × Pc)).foldl
    (fun b cp => (b.place_piece cp.1 cp.2).1) emptyBoard

/-- The game state around `checkDemoBoard`. -/
def checkDemoGame : GameState :=
  { board := checkDemoBoard,
    blue := { color := .blue, pieces := [⟨.general, (4, 8)⟩, ⟨.chariot, (4, 4)⟩],
              occupied := {((4 : Int), (8 : Int)), ((4 : Int), (4 : Int))},
              inCheck := false },
    red := { color := .red, pieces := [⟨.general, (4, 1)⟩],
             occupied := {((4 : Int), (1 : Int))}, inCheck := true },
    gameState := .unfinished, turnCounter := 1 }

/-! ## C1: committed moves never leave the mover's General in check

The proof goes through an invariant over reachable game states: each
player's in-check flag agrees with whether their General is actually
attacked, and the player who is NOT to move is never attacked while the
game is unfinished. -/

theorem Color.other_other (c : Color) : c.other.other = c := by cases c <;> rfl

theorem Color.other_ne (c : Color) : Color.other c ≠ c := by cases c <;> decide

theorem Color.ne_other (c : Color) : c ≠ Color.other c := (Color.other_ne c).symm

theorem Color.eq_or_other (c d : Color) : d = c ∨ d = Color.other c := by
  cases c <;> cases d <;> first | exact Or.inl rfl | exact Or.inr rfl

theorem player_setPlayer_self (g : GameState) (c : Color) (p : PlayerSt) :
    (g.setPlayer c p).player c = p := by cases c <;> rfl

theorem player_setPlayer_other (g : GameState) {c c' : Color} (h : c' ≠ c) (p : PlayerSt) :
    (g.setPlayer c p).player c' = g.player c' := by
  cases c <;> cases c' <;> first | rfl | exact absurd rfl h

theorem setFlag_player_self (g : GameState) (c : Color) (b : Bool) :
    (setFlag g c b).player c = { g.player c with inCheck := b } :=
  player_setPlayer_self g c _

theorem setFlag_player_other (g : GameState) {c c' : Color} (h : c' ≠ c) (b : Bool) :
    (setFlag g c b).player c' = g.player c' :=
  player_setPlayer_other g h _

theorem player_turnCounter (g : GameState) (n : Nat) (c : Color) :
    (({ g with turnCounter := n } : GameState)).player c = g.player c := by
  cases c <;> rfl

theorem player_gameState (g : GameState) (t : GState) (c : Color) :
    (({ g with gameState := t } : GameState)).player c = g.player c := by
  cases c <;> rfl

theorem attackedB_setFlag (c' c : Color) (g : GameState) (b : Bool) :
    attackedB c' (setFlag g c b) = attackedB c' g := by
  cases c <;> cases c' <;> rfl

theorem attackedB_turnCounter (c : Color) (g : GameState) (n : Nat) :
    attackedB c { g with turnCounter := n } = attackedB c g := by
  cases c <;> rfl

theorem attackedB_gameState (c : Color) (g : GameState) (t : GState) :
    attackedB c { g with gameState := t } = attackedB c g := by
  cases c <;> rfl

theorem setFlag_turnCounter (g : GameState) (c : Color) (b : Bool) :
    (setFlag g c b).turnCounter = g.turnCounter := by cases c <;> rfl

theorem setFlag_gameState (g : GameState) (c : Color) (b : Bool) :
    (setFlag g c b).gameState = g.gameState := by cases c <;> rfl

theorem applyMove_turnCounter (g : GameState) (sp ep : Coord) :
    (applyMove g sp ep).turnCounter = g.turnCounter := by
  unfold applyMove
  rcases h : occOf g.board sp with _ | ⟨pcc, pct⟩
  · rfl
  · rcases h2 : occOf g.board ep with _ | q <;> cases pcc <;> rfl

theorem applyMove_gameState (g : GameState) (sp ep : Coord) :
    (applyMove g sp ep).gameState = g.gameState := by
  unfold applyMove
  rcases h : occOf g.board sp with _ | ⟨pcc, pct⟩
  · rfl
  · rcases h2 : occOf g.board ep with _ | q <;> cases pcc <;> rfl

theorem applyMove_inCheck (g : GameState) (sp ep : Coord) (c : Color) :
    ((applyMove g sp ep).player c).inCheck = (g.player c).inCheck := by
  unfold applyMove
  rcases h : occOf g.board sp with _ | ⟨pcc, pct⟩
  · rfl
  · rcases h2 : occOf g.board ep with _ | q <;> cases pcc <;> cases c <;> rfl

theorem turnColor_succ (g : GameState) :
    turnColor { g with turnCounter := g.turnCounter + 1 } = Color.other (turnColor g) := by
  unfold turnColor
  rcases Nat.mod_two_eq_zero_or_one g.turnCounter with h | h
  · rw [if_pos h, if_neg (by omega : ¬ (g.turnCounter + 1) % 2 = 0)]; rfl
  · rw [if_neg (by omega : ¬ g.turnCounter % 2 = 0),
      if_pos (by omega : (g.turnCounter + 1) % 2 = 0)]; rfl

theorem turnColor_congr {g h : GameState} (he : g.turnCounter = h.turnCounter) :
    turnColor g = turnColor h := by unfold turnColor; rw [he]

/-- The reachability invariant: both in-check flags track whether the
owner's General actually lies in the opposing threat range, and in an
unfinished game the player NOT on turn is never under attack. -/
def INV (g : GameState) : Prop :=
  ((g.player .blue).inCheck = attackedB .blue g) ∧
  ((g.player .red).inCheck = attackedB .red g) ∧
  (g.gameState = GState.unfinished → attackedB (Color.other (turnColor g)) g = false)

theorem inv_flag {g : GameState} (hI : INV g) (c : Color) :
    (g.player c).inCheck = attackedB c g := by
  cases c
  · exact hI.1
  · exact hI.2.1

theorem inv_init : INV initialGame :=
  ⟨by decide, by decide, fun _ => by decide⟩

/-- One `make_move` request preserves the invariant, and a successful
request never leaves the mover attacked. -/
theorem make_move_step {g : GameState} {sp ep : Coord} {r : Bool} {g' : GameState}
    (hI : INV g) (h : make_move g sp ep = some (r, g')) :
    INV g' ∧ (r = true → attackedB (turnColor g) g' = false) := by
  unfold make_move at h
  by_cases h1 : g.gameState = GState.unfinished
  case neg =>
    rw [if_pos (by simp [h1])] at h
    simp only [Option.some.injEq, Prod.mk.injEq] at h
    obtain ⟨rfl, rfl⟩ := h
    exact ⟨hI, by simp⟩
  case pos =>
  rw [if_neg (by simp [h1])] at h
  by_cases h2 : sp ∈ g.board.get_occupied_spaces
  case neg =>
    rw [if_pos h2] at h
    simp only [Option.some.injEq, Prod.mk.injEq] at h
    obtain ⟨rfl, rfl⟩ := h
    exact ⟨hI, by simp⟩
  case pos =>
  rw [if_neg (by simp [h2])] at h
  rcases hsp : g.board.get_piece_at_coord sp with _ | v
  · rw [hsp] at h; exact absurd h (by simp)
  rcases v with _ | pc
  · rw [hsp] at h; exact absurd h (by simp)
  rw [hsp] at h
  rcases hep : g.board.get_piece_at_coord ep with _ | w
  · rw [hep] at h; exact absurd h (by simp)
  rw [hep] at h
  dsimp only at h
  by_cases ht : pc.1 ≠ turnColor g
  case pos =>
    rw [if_pos ht] at h
    simp only [Option.some.injEq, Prod.mk.injEq] at h
    obtain ⟨rfl, rfl⟩ := h
    exact ⟨hI, by simp⟩
  case neg =>
  have hteq : pc.1 = turnColor g := not_not.mp ht
  rw [if_neg ht] at h
  by_cases hpe : sp = ep
  case pos =>
    rw [if_pos hpe] at h
    by_cases hchk : (g.player pc.1).inCheck = true
    case pos =>
      rw [if_pos hchk] at h
      simp only [Option.some.injEq, Prod.mk.injEq] at h
      obtain ⟨rfl, rfl⟩ := h
      exact ⟨hI, by simp⟩
    case neg =>
    rw [if_neg hchk] at h
    simp only [Option.some.injEq, Prod.mk.injEq] at h
    obtain ⟨rfl, rfl⟩ := h
    have hflag0 : (g.player pc.1).inCheck = false := by
      cases hx : (g.player pc.1).inCheck
      · rfl
      · exact absurd hx hchk
    have hflag : attackedB (turnColor g) g = false := by
      rw [← inv_flag hI (turnColor g), ← hteq]; exact hflag0
    refine ⟨⟨?_, ?_, ?_⟩, fun _ => ?_⟩
    · rw [player_turnCounter, attackedB_turnCounter]; exact hI.1
    · rw [player_turnCounter, attackedB_turnCounter]; exact hI.2.1
    · intro hu
      rw [turnColor_succ, Color.other_other, attackedB_turnCounter]
      exact hflag
    · rw [attackedB_turnCounter]; exact hflag
  case neg =>
  rw [if_neg hpe] at h
  by_cases hr : ep ∉ pieceRange g.board (g.player pc.1).occupied (g.player pc.1).color
      ⟨pc.2, sp⟩
  case pos =>
    rw [if_pos hr] at h
    simp only [Option.some.injEq, Prod.mk.injEq] at h
    obtain ⟨rfl, rfl⟩ := h
    exact ⟨hI, by simp⟩
  case neg =>
  rw [if_neg hr] at h
  by_cases hlv : move_leaves_player_in_check g sp ep = true
  case pos =>
    rw [if_pos hlv] at h
    simp only [Option.some.injEq, Prod.mk.injEq] at h
    obtain ⟨rfl, rfl⟩ := h
    exact ⟨hI, by simp⟩
  case neg =>
  rw [if_neg hlv] at h
  simp only [Option.some.injEq, Prod.mk.injEq] at h
  obtain ⟨rfl, rfl⟩ := h
  -- the commit case
  set A := applyMove g sp ep with hA
  have hoccsp : occOf g.board sp = some pc := by unfold occOf; rw [hsp]
  have hmv : attackedB pc.1 A = false := by
    have hlv' : move_leaves_player_in_check g sp ep = false := by
      cases hx : move_leaves_player_in_check g sp ep
      · rfl
      · exact absurd hx hlv
    unfold move_leaves_player_in_check at hlv'
    rw [hoccsp] at hlv'
    exact hlv'
  set g2 := if (A.player pc.1).inCheck = true then setFlag A pc.1 false else A with hg2
  have f1 : ∀ c, attackedB c g2 = attackedB c A := by
    intro c
    rw [hg2]
    by_cases hb : (A.player pc.1).inCheck = true
    · rw [if_pos hb, attackedB_setFlag]
    · rw [if_neg hb]
  have f2 : (g2.player pc.1).inCheck = false := by
    rw [hg2]
    by_cases hb : (A.player pc.1).inCheck = true
    · rw [if_pos hb, setFlag_player_self]
    · rw [if_neg hb]
      cases hx : (A.player pc.1).inCheck
      · rfl
      · exact absurd hx hb
  have f3 : (g2.player (Color.other pc.1)).inCheck = (g.player (Color.other pc.1)).inCheck := by
    rw [hg2]
    by_cases hb : (A.player pc.1).inCheck = true
    · rw [if_pos hb, setFlag_player_other A (Color.other_ne pc.1) false,
        applyMove_inCheck]
    · rw [if_neg hb, applyMove_inCheck]
  have f4 : g2.turnCounter = g.turnCounter := by
    rw [hg2]
    by_cases hb : (A.player pc.1).inCheck = true
    · rw [if_pos hb, setFlag_turnCounter, applyMove_turnCounter]
    · rw [if_neg hb, applyMove_turnCounter]
  have f5 : g2.gameState = GState.unfinished := by
    rw [hg2]
    by_cases hb : (A.player pc.1).inCheck = true
    · rw [if_pos hb, setFlag_gameState, applyMove_gameState]; exact h1
    · rw [if_neg hb, applyMove_gameState]; exact h1
  have hoppg : attackedB (Color.other pc.1) g = false := by
    have := hI.2.2 h1
    rw [← hteq] at this
    exact this
  by_cases hatt : attackedB (Color.other pc.1) g2 = true
  case pos =>
    rw [if_pos hatt]
    set g3a := setFlag g2 (Color.other pc.1) true with hg3a
    have e1 : ∀ c, attackedB c g3a = attackedB c g2 := fun c => attackedB_setFlag ..
    have e2 : (g3a.player pc.1).inCheck = false := by
      rw [hg3a, setFlag_player_other g2 (Color.ne_other pc.1) true]; exact f2
    have e3 : (g3a.player (Color.other pc.1)).inCheck = true := by
      rw [hg3a, setFlag_player_self]
    have e4 : g3a.turnCounter = g.turnCounter := by
      rw [hg3a, setFlag_turnCounter]; exact f4
    by_cases hcm : verify_checkmate g3a (Color.other pc.1) = true
    case pos =>
      rw [if_pos hcm]
      refine ⟨⟨?_, ?_, ?_⟩, fun _ => ?_⟩
      · rcases Color.eq_or_other pc.1 Color.blue with hc | hc
        · rw [player_turnCounter, player_gameState, hc, e2,
            attackedB_turnCounter, attackedB_gameState, e1, f1]
          exact hmv.symm
        · rw [player_turnCounter, player_gameState, hc, e3,
            attackedB_turnCounter, attackedB_gameState, e1]
          exact hatt.symm
      · rcases Color.eq_or_other pc.1 Color.red with hc | hc
        · rw [player_turnCounter, player_gameState, hc, e2,
            attackedB_turnCounter, attackedB_gameState, e1, f1]
          exact hmv.symm
        · rw [player_turnCounter, player_gameState, hc, e3,
            attackedB_turnCounter, attackedB_gameState, e1]
          exact hatt.symm
      · intro hu
        exfalso
        revert hu
        cases pc.1 <;> simp
      · rw [attackedB_turnCounter, attackedB_gameState, e1, f1, ← hteq]
        exact hmv
    case neg =>
      rw [if_neg hcm]
      refine ⟨⟨?_, ?_, ?_⟩, fun _ => ?_⟩
      · rcases Color.eq_or_other pc.1 Color.blue with hc | hc
        · rw [player_turnCounter, hc, e2, attackedB_turnCounter, e1, f1]
          exact hmv.symm
        · rw [player_turnCounter, hc, e3, attackedB_turnCounter, e1]
          exact hatt.symm
      · rcases Color.eq_or_other pc.1 Color.red with hc | hc
        · rw [player_turnCounter, hc, e2, attackedB_turnCounter, e1, f1]
          exact hmv.symm
        · rw [player_turnCounter, hc, e3, attackedB_turnCounter, e1]
          exact hatt.symm
      · intro hu
        rw [turnColor_succ, attackedB_turnCounter,
          turnColor_congr (e4.trans rfl : g3a.turnCounter = g.turnCounter),
          Color.other_other, ← hteq, e1, f1]
        exact hmv
      · rw [attackedB_turnCounter, e1, f1, ← hteq]
        exact hmv
  case neg =>
    rw [if_neg hatt]
    have hattf : attackedB (Color.other pc.1) g2 = false := by
      cases hx : attackedB (Color.other pc.1) g2
      · rfl
      · exact absurd hx hatt
    refine ⟨⟨?_, ?_, ?_⟩, fun _ => ?_⟩
    · rcases Color.eq_or_other pc.1 Color.blue with hc | hc
      · rw [player_turnCounter, hc, f2, attackedB_turnCounter, f1]
        exact hmv.symm
      · rw [player_turnCounter, hc, f3, attackedB_turnCounter, hattf, inv_flag hI]
        exact hoppg
    · rcases Color.eq_or_other pc.1 Color.red with hc | hc
      · rw [player_turnCounter, hc, f2, attackedB_turnCounter, f1]
        exact hmv.symm
      · rw [player_turnCounter, hc, f3, attackedB_turnCounter, hattf, inv_flag hI]
        exact hoppg
    · intro hu
      rw [turnColor_succ, attackedB_turnCounter,
        turnColor_congr (f4 : g2.turnCounter = g.turnCounter),
        Color.other_other, ← hteq, f1]
      exact hmv
    · rw [attackedB_turnCounter, f1, ← hteq]
      exact hmv

theorem inv_reachable {g : GameState} (h : Reachable g) : INV g := by
  induction h with
  | init => exact inv_init
  | step hr hm ih => exact (make_move_step ih hm).1

/-- C1: for every reachable game state, a (non-pass) request whose
simulation leaves the mover's General in the opponent's threat range is
rejected by `make_move` — `False` is returned and nothing changes — and
every committed request (pass or move) leaves the mover's General outside
the opponent's threat range in the resulting state. -/
theorem c1 (g : GameState) (sp ep : Coord) (r : Bool) (g' : GameState)
    (hg : Reachable g) (h : make_move g sp ep = some (r, g')) :
    (sp ≠ ep → move_leaves_player_in_check g sp ep = true → r = false ∧ g' = g) ∧
    (r = true → attackedB (turnColor g) g' = false) := by
  refine ⟨?_, (make_move_step (inv_reachable hg) h).2⟩
  intro hne hlv
  unfold make_move at h
  by_cases h1 : g.gameState = GState.unfinished
  case neg =>
    rw [if_pos (by simp [h1])] at h
    simp only [Option.some.injEq, Prod.mk.injEq] at h
    exact ⟨h.1.symm, h.2.symm⟩
  case pos =>
  rw [if_neg (by simp [h1])] at h
  by_cases h2 : sp ∈ g.board.get_occupied_spaces
  case neg =>
    rw [if_pos h2] at h
    simp only [Option.some.injEq, Prod.mk.injEq] at h
    exact ⟨h.1.symm, h.2.symm⟩
  case pos =>
  rw [if_neg (by simp [h2])] at h
  rcases hsp : g.board.get_piece_at_coord sp with _ | v
  · rw [hsp] at h; exact absurd h (by simp)
  rcases v with _ | pc
  · rw [hsp] at h; exact absurd h (by simp)
  rw [hsp] at h
  rcases hep : g.board.get_piece_at_coord ep with _ | w
  · rw [hep] at h; exact absurd h (by simp)
  rw [hep] at h
  dsimp only at h
  by_cases ht : pc.1 ≠ turnColor g
  case pos =>
    rw [if_pos ht] at h
    simp only [Option.some.injEq, Prod.mk.injEq] at h
    exact ⟨h.1.symm, h.2.symm⟩
  case neg =>
  rw [if_neg ht, if_neg hne] at h
  by_cases hr : ep ∉ pieceRange g.board (g.player pc.1).occupied (g.player pc.1).color
      ⟨pc.2, sp⟩
  case pos =>
    rw [if_pos hr] at h
    simp only [Option.some.injEq, Prod.mk.injEq] at h
    exact ⟨h.1.symm, h.2.symm⟩
  case neg =>
  rw [if_neg hr, if_pos hlv] at h
  simp only [Option.some.injEq, Prod.mk.injEq] at h
  exact ⟨h.1.symm, h.2.symm⟩

/-- The state after blue's opening soldier push `(0, 6) → (0, 5)`. -/
def c1Post : GameState := ((make_move initialGame (0, 6) (0, 5)).getD (false, initialGame)).2

/-- Witness for `c1`: the committed opening move leaves blue's General out
of red's threat range. -/
theorem c1_witness :
    make_move initialGame (0, 6) (0, 5) = some (true, c1Post) ∧
      attackedB (turnColor initialGame) c1Post = false := by
  have h : make_move initialGame (0, 6) (0, 5) = some (true, c1Post) := by decide
  exact ⟨h, (c1 initialGame (0, 6) (0, 5) true c1Post Reachable.init h).2 rfl⟩

/-- Witness for `c3` at the constructed in-check position. -/
theorem c3_witness :
    (checkDemoGame.player Color.red).inCheck = true ∧
      (verify_checkmate checkDemoGame Color.red = true ↔
        ∀ piece ∈ (checkDemoGame.player Color.red).pieces,
          ∀ mv ∈ pieceRange checkDemoGame.board
              (checkDemoGame.player Color.red).occupied
              (checkDemoGame.player Color.red).color piece,
            move_leaves_player_in_check checkDemoGame piece.pos mv = true) :=
  ⟨rfl, c3 checkDemoGame Color.red rfl⟩

end Janggi
